import Mathlib

/-
Verification of the fusion-finding core of cDNA_primer
(pbtools/pbtranscript/fusion_finder.py).

The Python module is shallowly embedded below:
  - SAM alignment records become Lean structures over Int / Rat / String;
  - the defaultdict used for grouping becomes an insertion-ordered
    association list (dictAppend / dlookup);
  - fallible code (assert, raise, sys.exit) is modelled with Except or an
    explicit abort flag;
  - a Python function that can fall off its end returns Option Bool inside
    Except, with `none` standing for the implicit None return value.
-/

set_option autoImplicit false

/-- One exon block of an alignment, in reference coordinates.  The Python
field name `end` is a reserved word in Lean, so it is called `stop` here. -/
structure Segment where
  start : Int
  stop : Int
deriving DecidableEq, Inhabited

/-- Projection of a GMAP SAM record used by find_fusion_candidates
(fusion_finder.py line 135): the namedtuple TmpRec drops qID and sID. -/
structure TmpRec where
  qCov : Rat
  qLen : Int
  qStart : Int
  qEnd : Int
  sStart : Int
  sEnd : Int
deriving DecidableEq

/-- A full GMAP SAM record as consumed by find_fusion_candidates: read id,
contig id, and the coordinate fields of TmpRec. -/
structure SamRec where
  qID : String
  sID : String
  qCov : Rat
  qLen : Int
  qStart : Int
  qEnd : Int
  sStart : Int
  sEnd : Int
deriving DecidableEq

/-- Insert an interval into a list kept sorted by start coordinate. -/
def insertIv (x : Int × Int) : List (Int × Int) → List (Int × Int)
  | [] => [x]
  | y :: ys => if x.1 ≤ y.1 then x :: y :: ys else y :: insertIv x ys

/-- Insertion sort of intervals by start coordinate. -/
def sortIvs : List (Int × Int) → List (Int × Int)
  | [] => []
  | x :: xs => insertIv x (sortIvs xs)

/-- Sweep over start-sorted intervals, merging overlapping or touching
intervals into maximal clusters. -/
def sweepAux (cur : Int × Int) : List (Int × Int) → List (Int × Int)
  | [] => [cur]
  | y :: ys =>
    if y.1 ≤ cur.2 then sweepAux (cur.1, max cur.2 y.2) ys
    else cur :: sweepAux y ys

/-- Merge a start-sorted interval list into disjoint maximal clusters. -/
def sweep : List (Int × Int) → List (Int × Int)
  | [] => []
  | x :: xs => sweepAux x xs

/-- Modelled from the spec: the bx-python ClusterTree(0, 0) used by the
local helper total_coverage (fusion_finder.py lines 136-139) is an external
library whose source is not in the repository; per the spec it merges the
query intervals via interval union, so it is modelled as the total measure
of the union of the half-open intervals [qStart, qEnd): sort the intervals
by start, merge overlapping or touching ones, and sum the cluster lengths. -/
def total_coverage (tmprecs : List TmpRec) : Int :=
  ((sweep (sortIvs (tmprecs.map (fun r => (r.qStart, r.qEnd))))).map
    (fun p => p.2 - p.1)).sum

/-- The locus-distance gate applied to one pair of records
(fusion_finder.py line 149). -/
def pair_gate (min_dist : Int) (a b : TmpRec) : Bool :=
  decide (min_dist ≤ max a.sStart b.sStart - min a.sEnd b.sEnd)

/-- itertools.combinations(data, 2): test the gate on every pair i < j. -/
def all_pairs_gate (min_dist : Int) : List TmpRec → Bool
  | [] => true
  | a :: rest => rest.all (pair_gate min_dist a) && all_pairs_gate min_dist rest

/-- The candidate test applied to one read's record group
(fusion_finder.py lines 146-150).  Python computes
total_coverage(data) * 1. / data[0].qLen >= min_total_coverage with float
division; the quotient of the two integers is modelled exactly as the
rational Rat.divInt.  The group is empty only for a key never inserted,
which cannot happen; Rat.divInt is total so the qLen = 0 case, a
ZeroDivisionError in Python, is outside the modelled domain. -/
def is_fusion_candidate_group (min_locus_coverage min_total_coverage : Rat)
    (min_dist_between_loci : Int) : List TmpRec → Bool
  | [] => false
  | d0 :: rest =>
    decide (1 < (d0 :: rest).length) &&
    (d0 :: rest).all (fun a => decide (min_locus_coverage ≤ a.qCov)) &&
    decide (min_total_coverage ≤ Rat.divInt (total_coverage (d0 :: rest)) d0.qLen) &&
    all_pairs_gate min_dist_between_loci (d0 :: rest)

/-- defaultdict(list) update d[k].append(v), modelled on an
insertion-ordered association list. -/
def dictAppend {β : Type} : List (String × List β) → String → β → List (String × List β)
  | [], k, v => [(k, [v])]
  | (k2, vs) :: rest, k, v =>
    if k2 = k then (k2, vs ++ [v]) :: rest else (k2, vs) :: dictAppend rest k v

/-- defaultdict(list) lookup: the empty list for an absent key. -/
def dlookup {β : Type} : List (String × List β) → String → List β
  | [], _ => []
  | (k2, vs) :: rest, k => if k2 = k then vs else dlookup rest k

/-- The namedtuple construction TmpRec(qCov=..., ..., sEnd=...) at
fusion_finder.py line 143. -/
def toTmpRec (r : SamRec) : TmpRec :=
  { qCov := r.qCov, qLen := r.qLen, qStart := r.qStart, qEnd := r.qEnd,
    sStart := r.sStart, sEnd := r.sEnd }

/-- The grouping loop of find_fusion_candidates (lines 141-143):
for r in reader, d[r.qID].append(TmpRec(...)). -/
def groupByQID (recs : List SamRec) : List (String × List TmpRec) :=
  recs.foldl (fun d r => dictAppend d r.qID (toTmpRec r)) []

/-- find_fusion_candidates (fusion_finder.py lines 127-152): group the
records of the alignment stream by read id and keep the read ids whose
groups pass the candidate test.  Python defaults are min_locus_coverage
= 0.1, min_total_coverage = 0.99, min_dist_between_loci = 100000. -/
def find_fusion_candidates (recs : List SamRec)
    (min_locus_coverage min_total_coverage : Rat)
    (min_dist_between_loci : Int) : List String :=
  (groupByQID recs).filterMap (fun e =>
    if is_fusion_candidate_group min_locus_coverage min_total_coverage
        min_dist_between_loci e.2 then some e.1 else none)

/-- The junction relation labels returned by the external classifier
compare_junctions.compare_junctions.  The labels other than exact, super
and subset (partial, nomatch, ...) all reach the same final else branch of
is_fusion_compatible, so they are collapsed into one constructor. -/
inductive JType where
  | exact
  | super
  | subset
  | nomatch
deriving DecidableEq

/-- A GMAP SAM record as consumed by is_fusion_compatible: strand, query
start, reference span and the exon segment chain.  The data-model
invariant is segments nonempty (Python indexes segments[0] and
segments[-1] unconditionally); the headD / getLastD defaults below are
never reached on that domain. -/
structure SRec where
  strand : Char
  qStart : Int
  sStart : Int
  sEnd : Int
  segments : List Segment
deriving DecidableEq

/-- is_fusion_compatible (fusion_finder.py lines 20-73).  The external
classifier compare_junctions is passed in as a function argument.  Python
return True / return False become Except.ok (some true) /
Except.ok (some false); the assert and the raise become Except.error; the
super / subset branch whose inner checks all pass falls off the end of
the Python function and therefore returns None, modelled as
Except.ok none. -/
def is_fusion_compatible (classify : SRec → SRec → JType) (r1 r2 : SRec)
    (max_fusion_point_dist : Int) (allow_extra_5_exons : Bool) :
    Except String (Option Bool) :=
  if r1.strand ≠ r2.strand then .error "assert r1.flag.strand == r2.flag.strand"
  else if r1.qStart < 100 ∧ 100 < r2.qStart then .ok (some false)
  else if ¬(r1.qStart < 100) ∧ r2.qStart < 100 then .ok (some false)
  else
    let in_5_portion := r1.qStart < 100
    let plus_is_5end := r1.strand = '+'
    match classify r1 r2 with
    | .exact =>
      if r1.segments.length = 1 then
        if r2.segments.length = 1 then
          let dist := if in_5_portion ∧ plus_is_5end then (r1.sStart - r2.sStart).natAbs
                      else (r1.sEnd - r2.sEnd).natAbs
          .ok (some (decide ((dist : Int) ≤ max_fusion_point_dist)))
        else .error "Not possible case for multi-exon transcript and single-exon transcript to be exact!"
      else .ok (some true)
    | .super | .subset =>
      if allow_extra_5_exons then
        if in_5_portion ∧ plus_is_5end then
          if (r1.segments.getLastD default).start ≠ (r2.segments.getLastD default).start then
            .ok (some false)
          else if max_fusion_point_dist <
              (((r1.segments.getLastD default).stop - (r2.segments.getLastD default).stop).natAbs : Int) then
            .ok (some false)
          else .ok none
        else if in_5_portion ∧ ¬plus_is_5end then
          if (r1.segments.headD default).stop ≠ (r2.segments.headD default).stop then
            .ok (some false)
          else if max_fusion_point_dist <
              (((r1.segments.headD default).start - (r2.segments.headD default).start).natAbs : Int) then
            .ok (some false)
          else .ok none
        else .ok (some false)
      else .ok (some false)
    | .nomatch => .ok (some false)

/-- A junction classifier that always answers exact, used for the
concrete counterexample inputs. -/
def constExact : SRec → SRec → JType := fun _ _ => JType.exact

/-- C3: for same-strand, same-query-portion, both-single-exon records
classified exact, is_fusion_compatible returns the boolean of
fusion-point distance <= D, where the distance is
|r1.refStart - r2.refStart| when the shared portion is the 5-prime
portion and the strand is '+', and |r1.refEnd - r2.refEnd| in every other
case; hence distance exactly D is compatible and distance D+1 is not. -/
theorem C3_exact_single_exon (classify : SRec → SRec → JType) (r1 r2 : SRec)
    (D : Int) (allow : Bool)
    (hstrand : r1.strand = r2.strand)
    (hportion : r1.qStart < 100 ↔ r2.qStart < 100)
    (hex : classify r1 r2 = JType.exact)
    (h1 : r1.segments.length = 1) (h2 : r2.segments.length = 1) :
    is_fusion_compatible classify r1 r2 D allow =
      Except.ok (some (decide
        (((if r1.qStart < 100 ∧ r1.strand = '+'
            then (r1.sStart - r2.sStart).natAbs
            else (r1.sEnd - r2.sEnd).natAbs) : Int) ≤ D))) := by
  rw [is_fusion_compatible]
  rw [if_neg (by simp [hstrand])]
  have hng1 : ¬(r1.qStart < 100 ∧ 100 < r2.qStart) := by
    rintro ⟨ha, hb⟩
    have := hportion.mp ha
    omega
  have hng2 : ¬(¬(r1.qStart < 100) ∧ r2.qStart < 100) := by
    rintro ⟨ha, hb⟩
    exact ha (hportion.mpr hb)
  rw [if_neg hng1, if_neg hng2, hex]
  simp [h1, h2]

/-- C3 witness input: single-exon record on the plus strand, 5-prime
portion. -/
def c3a : SRec :=
  { strand := '+', qStart := 0, sStart := 1000, sEnd := 2000,
    segments := [{ start := 1000, stop := 2000 }] }

/-- C3 witness input: fusion point exactly 100 away from c3a. -/
def c3b : SRec :=
  { strand := '+', qStart := 0, sStart := 1100, sEnd := 2000,
    segments := [{ start := 1100, stop := 2000 }] }

/-- C3 witness input: fusion point 101 away from c3a. -/
def c3c : SRec :=
  { strand := '+', qStart := 0, sStart := 1101, sEnd := 2000,
    segments := [{ start := 1101, stop := 2000 }] }

/-- C3 witness: with D = 100, distance exactly 100 is compatible and
distance 101 is not. -/
theorem C3_exact_single_exon_witness :
    is_fusion_compatible constExact c3a c3b 100 true = Except.ok (some true) ∧
    is_fusion_compatible constExact c3a c3c 100 true = Except.ok (some false) :=
  ⟨(C3_exact_single_exon constExact c3a c3b 100 true rfl (by decide) rfl rfl rfl).trans
      rfl,
   (C3_exact_single_exon constExact c3a c3c 100 true rfl (by decide) rfl rfl rfl).trans
      rfl⟩

/-- C5 counterexample input: a multi-exon record. -/
def c5r1 : SRec :=
  { strand := '+', qStart := 0, sStart := 0, sEnd := 100,
    segments := [{ start := 0, stop := 50 }, { start := 60, stop := 100 }] }

/-- C5 counterexample input: a single-exon record. -/
def c5r2 : SRec :=
  { strand := '+', qStart := 0, sStart := 0, sEnd := 100,
    segments := [{ start := 0, stop := 100 }] }

/-- C5 counterexample: with the classifier answering exact and exactly one
of the two records single-exon (first argument multi-exon, second
single-exon), is_fusion_compatible does not raise: it returns True, so
the claimed fatal failure in either argument order is false. -/
theorem C5_counterexample :
    c5r1.segments.length ≠ 1 ∧ c5r2.segments.length = 1 ∧
    c5r1.strand = c5r2.strand ∧ constExact c5r1 c5r2 = JType.exact ∧
    is_fusion_compatible constExact c5r1 c5r2 100 true = Except.ok (some true) :=
  ⟨by decide, rfl, rfl, rfl, rfl⟩

/-- C5 amended: under an exact junction relation the mixed
single/multi-exon combination is fatal only in one argument order: when
the first record is single-exon and the second is not, the call raises;
when the first record is multi-exon the call returns True no matter how
many exons the second record has. -/
theorem C5_exact_mixed_exons :
    (∀ (classify : SRec → SRec → JType) (r1 r2 : SRec) (D : Int) (allow : Bool),
      r1.strand = r2.strand → (r1.qStart < 100 ↔ r2.qStart < 100) →
      classify r1 r2 = JType.exact → r1.segments.length = 1 →
      r2.segments.length ≠ 1 →
      is_fusion_compatible classify r1 r2 D allow =
        Except.error
          "Not possible case for multi-exon transcript and single-exon transcript to be exact!") ∧
    (∀ (classify : SRec → SRec → JType) (r1 r2 : SRec) (D : Int) (allow : Bool),
      r1.strand = r2.strand → (r1.qStart < 100 ↔ r2.qStart < 100) →
      classify r1 r2 = JType.exact → r1.segments.length ≠ 1 →
      is_fusion_compatible classify r1 r2 D allow = Except.ok (some true)) := by
  constructor
  · intro classify r1 r2 D allow hstrand hportion hex h1 h2
    rw [is_fusion_compatible, if_neg (by simp [hstrand])]
    have hng1 : ¬(r1.qStart < 100 ∧ 100 < r2.qStart) := by
      rintro ⟨ha, hb⟩
      have := hportion.mp ha
      omega
    have hng2 : ¬(¬(r1.qStart < 100) ∧ r2.qStart < 100) := by
      rintro ⟨ha, hb⟩
      exact ha (hportion.mpr hb)
    rw [if_neg hng1, if_neg hng2, hex]
    simp [h1, h2]
  · intro classify r1 r2 D allow hstrand hportion hex h1
    rw [is_fusion_compatible, if_neg (by simp [hstrand])]
    have hng1 : ¬(r1.qStart < 100 ∧ 100 < r2.qStart) := by
      rintro ⟨ha, hb⟩
      have := hportion.mp ha
      omega
    have hng2 : ¬(¬(r1.qStart < 100) ∧ r2.qStart < 100) := by
      rintro ⟨ha, hb⟩
      exact ha (hportion.mpr hb)
    rw [if_neg hng1, if_neg hng2, hex]
    simp [h1]

/-- C5 amended witness: single-exon first argument and multi-exon second
argument raise the exception; the swapped order returns True. -/
theorem C5_exact_mixed_exons_witness :
    is_fusion_compatible constExact c5r2 c5r1 100 true =
      Except.error
        "Not possible case for multi-exon transcript and single-exon transcript to be exact!" ∧
    is_fusion_compatible constExact c5r1 c5r2 100 true = Except.ok (some true) :=
  ⟨C5_exact_mixed_exons.1 constExact c5r2 c5r1 100 true rfl (by decide) rfl rfl
      (by decide),
   C5_exact_mixed_exons.2 constExact c5r1 c5r2 100 true rfl (by decide) rfl
      (by decide)⟩

/-- C6 counterexample input: queryStart 50, in the 5-prime portion. -/
def c6r1 : SRec :=
  { strand := '+', qStart := 50, sStart := 0, sEnd := 100,
    segments := [{ start := 0, stop := 100 }] }

/-- C6 counterexample input: queryStart exactly 100, not in the 5-prime
portion under the queryStart < 100 classification. -/
def c6r2 : SRec :=
  { strand := '+', qStart := 100, sStart := 0, sEnd := 100,
    segments := [{ start := 0, stop := 100 }] }

/-- C6 counterexample: exactly one of the records has queryStart < 100
(the other has queryStart exactly 100), yet is_fusion_compatible returns
True rather than the claimed incompatible, because the code rejects the
second record only when its queryStart is strictly greater than 100. -/
theorem C6_counterexample :
    c6r1.qStart < 100 ∧ ¬(c6r2.qStart < 100) ∧ c6r1.strand = c6r2.strand ∧
    is_fusion_compatible constExact c6r1 c6r2 100 true = Except.ok (some true) :=
  ⟨by decide, by decide, rfl, rfl⟩

/-- C6 amended: the early portion rejection fires exactly on the
asymmetric conditions the code tests: the result is incompatible whenever
r1.queryStart < 100 and r2.queryStart > 100 (strictly), or
r1.queryStart >= 100 and r2.queryStart < 100.  The remaining mixed case —
r1.queryStart < 100 with r2.queryStart exactly 100 — is not rejected. -/
theorem C6_portion_mismatch (classify : SRec → SRec → JType) (r1 r2 : SRec)
    (D : Int) (allow : Bool) (hstrand : r1.strand = r2.strand)
    (h : (r1.qStart < 100 ∧ 100 < r2.qStart) ∨ (¬(r1.qStart < 100) ∧ r2.qStart < 100)) :
    is_fusion_compatible classify r1 r2 D allow = Except.ok (some false) := by
  rw [is_fusion_compatible, if_neg (by simp [hstrand])]
  rcases h with h | h
  · rw [if_pos h]
  · rw [if_neg (fun hc => h.1 hc.1), if_pos h]

/-- C6 amended witness: queryStart 150 against queryStart 50 on the same
strand is incompatible. -/
theorem C6_portion_mismatch_witness :
    is_fusion_compatible constExact
      { strand := '+', qStart := 150, sStart := 0, sEnd := 100,
        segments := [{ start := 0, stop := 100 }] }
      { strand := '+', qStart := 50, sStart := 0, sEnd := 100,
        segments := [{ start := 0, stop := 100 }] } 100 true =
      Except.ok (some false) :=
  C6_portion_mismatch constExact _ _ 100 true rfl (Or.inr (by decide))

/-- One pass of the inner loop of merge_fusion_exons (lines 93-99): scan
the existing groups in creation order; append the new record r to the
first group all of whose members m satisfy compat r m; if no group
qualifies, append the singleton group [r] at the end. -/
def placeRec {α : Type} (compat : α → α → Bool) : List (List α) → α → List (List α)
  | [], r => [[r]]
  | g :: gs, r =>
    if g.all (fun m => compat r m) then (g ++ [r]) :: gs
    else g :: placeRec compat gs r

/-- merge_fusion_exons (fusion_finder.py lines 75-100), generic in the
pairwise compatibility predicate (the call site instantiates it with
is_fusion_compatible): seed the output with a singleton group holding the
first record, then place every later record first-fit.  Python raises
IndexError on an empty record list; the empty case is outside the
modelled domain and returns []. -/
def merge_fusion_exons {α : Type} (compat : α → α → Bool) : List α → List (List α)
  | [] => []
  | r :: rs => rs.foldl (placeRec compat) [[r]]

/-- The invariant merge_fusion_exons actually maintains inside each group:
every member is compatible, as first argument, with every member placed
before it (groups list members in placement order). -/
def chainCompat {α : Type} (compat : α → α → Bool) : List α → Bool
  | [] => true
  | a :: rest => rest.all (fun b => compat b a) && chainCompat compat rest

/-- Truthiness of an is_fusion_compatible result as used by the all(...)
generator inside merge_fusion_exons on runs that raise no exception:
only the value True is truthy (both False and the implicit None are
falsy). -/
def compat_truthy (classify : SRec → SRec → JType) (D : Int) (allow : Bool)
    (r1 r2 : SRec) : Bool :=
  match is_fusion_compatible classify r1 r2 D allow with
  | Except.ok (some true) => true
  | _ => false

theorem chainCompat_append_iff {α : Type} (compat : α → α → Bool) (g : List α) (r : α) :
    chainCompat compat (g ++ [r]) = true ↔
      (g.all (fun m => compat r m) = true ∧ chainCompat compat g = true) := by
  induction g with
  | nil => simp [chainCompat]
  | cons a t ih =>
    simp only [List.cons_append, chainCompat, Bool.and_eq_true, List.append_eq,
      List.all_append, List.all_cons, List.all_nil, Bool.and_true, ih]
    tauto

theorem placeRec_chain {α : Type} (compat : α → α → Bool) (gs : List (List α)) (r : α)
    (h : ∀ G ∈ gs, chainCompat compat G = true) :
    ∀ G ∈ placeRec compat gs r, chainCompat compat G = true := by
  induction gs with
  | nil =>
    intro G hG
    simp only [placeRec, List.mem_singleton] at hG
    subst hG
    simp [chainCompat]
  | cons g tl ih =>
    intro G hG
    rw [placeRec] at hG
    by_cases hc : g.all (fun m => compat r m) = true
    · rw [if_pos hc] at hG
      rcases List.mem_cons.mp hG with rfl | hG
      · exact (chainCompat_append_iff compat g r).mpr ⟨hc, h g (List.mem_cons_self _ _)⟩
      · exact h G (List.mem_cons_of_mem _ hG)
    · rw [if_neg hc] at hG
      rcases List.mem_cons.mp hG with rfl | hG
      · exact h G (List.mem_cons_self _ _)
      · exact ih (fun G2 hG2 => h G2 (List.mem_cons_of_mem _ hG2)) G hG

theorem foldl_placeRec_chain {α : Type} (compat : α → α → Bool) (rs : List α)
    (gs : List (List α)) (h : ∀ G ∈ gs, chainCompat compat G = true) :
    ∀ G ∈ rs.foldl (placeRec compat) gs, chainCompat compat G = true := by
  induction rs generalizing gs with
  | nil => simpa using h
  | cons r tl ih => exact ih _ (placeRec_chain compat gs r h)

theorem placeRec_firstFit {α : Type} (compat : α → α → Bool) (gs : List (List α)) (r : α) :
    ((∀ g ∈ gs, g.all (fun m => compat r m) = false) ∧
      placeRec compat gs r = gs ++ [[r]]) ∨
    (∃ i, i < gs.length ∧ (gs.getD i []).all (fun m => compat r m) = true ∧
      (∀ j, j < i → (gs.getD j []).all (fun m => compat r m) = false) ∧
      placeRec compat gs r = gs.set i (gs.getD i [] ++ [r])) := by
  induction gs with
  | nil =>
    left
    exact ⟨by simp, by simp [placeRec]⟩
  | cons g tl ih =>
    by_cases hc : g.all (fun m => compat r m) = true
    · right
      refine ⟨0, by simp, by simpa using hc, fun j hj => absurd hj (Nat.not_lt_zero j), ?_⟩
      simp [placeRec, hc]
    · have hcf : g.all (fun m => compat r m) = false := by
        cases hval : g.all (fun m => compat r m)
        · rfl
        · exact absurd hval hc
      rcases ih with ⟨hall, heq⟩ | ⟨i, hi, hgood, hbefore, heq⟩
      · left
        refine ⟨?_, ?_⟩
        · intro g2 hg2
          rcases List.mem_cons.mp hg2 with rfl | h2
          · exact hcf
          · exact hall g2 h2
        · simp [placeRec, hcf, heq]
      · right
        refine ⟨i + 1, Nat.succ_lt_succ hi, by simpa using hgood, ?_, ?_⟩
        · intro j hj
          cases j with
          | zero => simpa using hcf
          | succ j2 => simpa using hbefore j2 (Nat.lt_of_succ_lt_succ hj)
        · simp [placeRec, hcf, heq, List.set]

/-- C2 counterexample input: a record with queryStart exactly 100. -/
def c2ra : SRec :=
  { strand := '+', qStart := 100, sStart := 0, sEnd := 100,
    segments := [{ start := 0, stop := 100 }] }

/-- C2 counterexample input: a record with queryStart 50. -/
def c2rb : SRec :=
  { strand := '+', qStart := 50, sStart := 0, sEnd := 100,
    segments := [{ start := 0, stop := 100 }] }

/-- C2 counterexample: the compatibility predicate the code uses is not
symmetric, so an output group need not be a clique in both argument
orders: merging [c2ra, c2rb] under is_fusion_compatible (truthiness of
the returned value) puts both records in one group because
compat(c2rb, c2ra) is truthy, yet compat(c2ra, c2rb) is false. -/
theorem C2_counterexample :
    merge_fusion_exons (compat_truthy constExact 100 true) [c2ra, c2rb] =
      [[c2ra, c2rb]] ∧
    compat_truthy constExact 100 true c2ra c2rb = false :=
  ⟨rfl, rfl⟩

/-- C2 amended: (a) every group in the output of merge_fusion_exons
satisfies the one-sided clique invariant the code actually enforces:
every member is compatible, as first predicate argument, with every
member placed before it (so for a symmetric predicate every group is a
clique); (b) each new record is placed first-fit into the earliest group
all of whose existing members it is compatible with, or into a fresh
singleton group appended at the end if none qualifies; (c)
merge_fusion_exons is exactly the fold of that placement step over the
input after seeding with the first record. -/
theorem C2_first_fit_chain :
    (∀ (α : Type) (compat : α → α → Bool) (r : α) (rs : List α),
      ∀ G ∈ merge_fusion_exons compat (r :: rs), chainCompat compat G = true) ∧
    (∀ (α : Type) (compat : α → α → Bool) (gs : List (List α)) (r : α),
      ((∀ g ∈ gs, g.all (fun m => compat r m) = false) ∧
        placeRec compat gs r = gs ++ [[r]]) ∨
      (∃ i, i < gs.length ∧ (gs.getD i []).all (fun m => compat r m) = true ∧
        (∀ j, j < i → (gs.getD j []).all (fun m => compat r m) = false) ∧
        placeRec compat gs r = gs.set i (gs.getD i [] ++ [r]))) ∧
    (∀ (α : Type) (compat : α → α → Bool) (r : α) (rs : List α),
      merge_fusion_exons compat (r :: rs) = rs.foldl (placeRec compat) [[r]]) := by
  refine ⟨?_, ?_, ?_⟩
  · intro α compat r rs
    exact foldl_placeRec_chain compat rs [[r]]
      (by intro G hG; simp only [List.mem_singleton] at hG; subst hG; simp [chainCompat])
  · intro α compat gs r
    exact placeRec_firstFit compat gs r
  · intro α compat r rs
    rfl

/-- C2 amended witness: the chain invariant at a concrete merge. -/
theorem C2_first_fit_chain_witness :
    chainCompat (compat_truthy constExact 100 true) [c2ra, c2rb] = true :=
  C2_first_fit_chain.1 SRec (compat_truthy constExact 100 true) c2ra [c2rb]
    [c2ra, c2rb] (by decide)

theorem placeRec_ne_nil {α : Type} (compat : α → α → Bool) (gs : List (List α)) (r : α)
    (h : ∀ G ∈ gs, G ≠ []) : ∀ G ∈ placeRec compat gs r, G ≠ [] := by
  induction gs with
  | nil =>
    intro G hG
    simp only [placeRec, List.mem_singleton] at hG
    subst hG
    simp
  | cons g tl ih =>
    intro G hG
    rw [placeRec] at hG
    by_cases hc : g.all (fun m => compat r m) = true
    · rw [if_pos hc] at hG
      rcases List.mem_cons.mp hG with rfl | hG
      · simp
      · exact h G (List.mem_cons_of_mem _ hG)
    · rw [if_neg hc] at hG
      rcases List.mem_cons.mp hG with rfl | hG
      · exact h G (List.mem_cons_self _ _)
      · exact ih (fun G2 hG2 => h G2 (List.mem_cons_of_mem _ hG2)) G hG

theorem placeRec_join_perm {α : Type} (compat : α → α → Bool) (gs : List (List α)) (r : α) :
    (placeRec compat gs r).flatten.Perm (gs.flatten ++ [r]) := by
  induction gs with
  | nil => simp [placeRec]
  | cons g tl ih =>
    by_cases hc : g.all (fun m => compat r m) = true
    · simp only [placeRec, if_pos hc, List.flatten_cons, List.append_assoc]
      exact List.Perm.append_left g (List.perm_append_comm)
    · simp only [placeRec, if_neg hc, List.flatten_cons, List.append_assoc]
      exact List.Perm.append_left g ih

theorem foldl_placeRec_join_perm {α : Type} (compat : α → α → Bool) (rs : List α)
    (gs : List (List α)) :
    ((rs.foldl (placeRec compat) gs).flatten).Perm (gs.flatten ++ rs) := by
  induction rs generalizing gs with
  | nil => simp
  | cons r tl ih =>
    have h1 := ih (placeRec compat gs r)
    have h2 : ((placeRec compat gs r).flatten ++ tl).Perm ((gs.flatten ++ [r]) ++ tl) :=
      List.Perm.append_right tl (placeRec_join_perm compat gs r)
    have h3 : (gs.flatten ++ [r]) ++ tl = gs.flatten ++ (r :: tl) := by simp
    rw [List.foldl_cons]
    exact (h1.trans h2).trans (by rw [h3])

theorem foldl_placeRec_inv {α : Type} (compat : α → α → Bool) (x : α) (rs : List α) :
    ∀ (gs : List (List α)), (∀ G ∈ gs, G ≠ []) →
      (∃ g tl, gs = g :: tl ∧ g.head? = some x) →
      (∀ G ∈ rs.foldl (placeRec compat) gs, G ≠ []) ∧
      (∃ g tl, rs.foldl (placeRec compat) gs = g :: tl ∧ g.head? = some x) := by
  induction rs with
  | nil =>
    intro gs h1 h2
    exact ⟨h1, h2⟩
  | cons r tl ih =>
    intro gs h1 h2
    rw [List.foldl_cons]
    apply ih
    · exact placeRec_ne_nil compat gs r h1
    · obtain ⟨g, gtl, rfl, hh⟩ := h2
      by_cases hc : g.all (fun m => compat r m) = true
      · refine ⟨g ++ [r], gtl, by simp [placeRec, hc], ?_⟩
        cases g with
        | nil => simp at hh
        | cons a t => simpa using hh
      · exact ⟨g, placeRec compat gtl r, by simp [placeRec, hc], hh⟩

/-- C9: for every non-empty input, the groups returned by
merge_fusion_exons partition the input: every output group is non-empty,
the concatenation of the groups is a permutation of the input (each
record lands in exactly one group, none duplicated or dropped), and the
first output group starts with the first input record, its sole seed. -/
theorem C9_partition :
    ∀ (α : Type) (compat : α → α → Bool) (r : α) (rs : List α),
      (∀ G ∈ merge_fusion_exons compat (r :: rs), G ≠ []) ∧
      (merge_fusion_exons compat (r :: rs)).flatten.Perm (r :: rs) ∧
      (∃ g tl, merge_fusion_exons compat (r :: rs) = g :: tl ∧ g.head? = some r) := by
  intro α compat r rs
  have hinv := foldl_placeRec_inv compat r rs [[r]]
    (by intro G hG; simp only [List.mem_singleton] at hG; subst hG; simp)
    ⟨[r], [], rfl, rfl⟩
  have hperm := foldl_placeRec_join_perm compat rs [[r]]
  refine ⟨hinv.1, ?_, hinv.2⟩
  simpa using hperm

/-- C9 witness: the partition facts at a concrete merge. -/
theorem C9_partition_witness :
    ([(5 : Nat)] ≠ []) ∧
    (merge_fusion_exons (fun (_ _ : Nat) => true) [5]).flatten.Perm [5] :=
  ⟨(C9_partition Nat (fun _ _ => true) 5 []).1 [5] (by decide),
   (C9_partition Nat (fun _ _ => true) 5 []).2.1⟩

/-- A GMAP SAM record as consumed by iter_gmap_sam_for_fusion: read id,
contig id, strand and reference span. -/
structure FRec where
  qID : String
  sID : String
  strand : Char
  sStart : Int
  sEnd : Int
deriving DecidableEq

/-- sep_by_strand (fusion_finder.py lines 14-18), on records whose strand
is one of '+' and '-': the pair of the plus bucket and the minus
bucket. -/
def sep_by_strand (records : List FRec) : List FRec × List FRec :=
  (records.filter (fun r => decide (r.strand = '+')),
   records.filter (fun r => decide (r.strand = '-')))

/-- The first loop of iter_gmap_sam_for_fusion (lines 107-112): skip
records until the first fusion candidate, which seeds the buffer; return
the buffer and the unread remainder of the stream. -/
def dropToFirst (cands : List String) : List FRec → List FRec × List FRec
  | [] => ([], [])
  | r :: rest => if r.qID ∈ cands then ([r], rest) else dropToFirst cands rest

/-- The second loop of iter_gmap_sam_for_fusion (lines 114-125) plus the
final flush: process the remaining records against the window buffer.
The returned Bool is true when the run aborts via sys.exit on the
sortedness check (line 115-117); the returned list holds the windows
yielded before the abort. -/
def iterWindows (cands : List String) :
    List FRec → List FRec → List (List FRec × List FRec) × Bool
  | [], [] => ([], false)
  | [], b :: bs => ([sep_by_strand (b :: bs)], false)
  | r :: rest, [] => iterWindows cands rest (if r.qID ∈ cands then [r] else [])
  | r :: rest, b :: bs =>
    if r.sStart < ((b :: bs).getLast (List.cons_ne_nil b bs)).sStart then ([], true)
    else
      let flushed : List (List FRec × List FRec) × List FRec :=
        if r.sID ≠ b.sID ∨ ((b :: bs).getLast (List.cons_ne_nil b bs)).sEnd < r.sStart then
          ([sep_by_strand (b :: bs)], [])
        else ([], b :: bs)
      let buf2 := if r.qID ∈ cands then flushed.2 ++ [r] else flushed.2
      let tail := iterWindows cands rest buf2
      (flushed.1 ++ tail.1, tail.2)

/-- iter_gmap_sam_for_fusion (fusion_finder.py lines 102-125): the list of
strand-separated windows yielded over the whole input, together with the
abort flag of the sortedness check. -/
def iter_gmap_sam_for_fusion (cands : List String) (recs : List FRec) :
    List (List FRec × List FRec) × Bool :=
  iterWindows cands (dropToFirst cands recs).2 (dropToFirst cands recs).1

/-- Within-contig sortedness of an alignment stream: adjacent records on
the same contig have non-decreasing sStart.  A stream sorted by
(contigID, refStart) always satisfies this. -/
def sortedSameContig : List FRec → Bool
  | [] => true
  | [_] => true
  | a :: b :: rest =>
    (decide (a.sID ≠ b.sID) || decide (a.sStart ≤ b.sStart)) && sortedSameContig (b :: rest)

/-- C7: whenever the window loop reads a record whose refStart is smaller
than the refStart of the last record of the non-empty buffer, the whole
run aborts (sys.exit, modelled as the abort flag, with no further
windows); in particular an input of two candidate records on the same
contig with refStart 100 followed by refStart 50 aborts. -/
theorem C7_unsorted_abort :
    (∀ (cands : List String) (r : FRec) (rest : List FRec) (b : FRec) (bs : List FRec),
      r.sStart < ((b :: bs).getLast (List.cons_ne_nil b bs)).sStart →
      (iterWindows cands (r :: rest) (b :: bs)).2 = true) ∧
    iter_gmap_sam_for_fusion ["q1"]
      [{ qID := "q1", sID := "chr1", strand := '+', sStart := 100, sEnd := 200 },
       { qID := "q1", sID := "chr1", strand := '+', sStart := 50, sEnd := 80 }] =
      ([], true) := by
  constructor
  · intro cands r rest b bs h
    simp only [iterWindows, if_pos h]
  · rfl

/-- C7 witness: the abort at a concrete unsorted buffer state. -/
theorem C7_unsorted_abort_witness :
    (iterWindows ["q1"]
      [{ qID := "q1", sID := "chr1", strand := '+', sStart := 50, sEnd := 80 }]
      [{ qID := "q1", sID := "chr1", strand := '+', sStart := 100, sEnd := 200 }]).2 =
      true :=
  C7_unsorted_abort.1 ["q1"] _ [] _ [] (by decide)

/-- C10 input 1: two out-of-order non-candidate records precede the first
candidate record. -/
def c10n1 : FRec := { qID := "x", sID := "chr1", strand := '+', sStart := 100, sEnd := 110 }

/-- C10 input 1: second non-candidate record, out of order after c10n1. -/
def c10n2 : FRec := { qID := "y", sID := "chr1", strand := '+', sStart := 50, sEnd := 60 }

/-- C10 input 1: first candidate record. -/
def c10c1 : FRec := { qID := "a", sID := "chr1", strand := '+', sStart := 0, sEnd := 10 }

/-- C10 input 1: second candidate record, overlapping c10c1. -/
def c10c2 : FRec := { qID := "a", sID := "chr1", strand := '+', sStart := 5, sEnd := 8 }

/-- C10 input 2: candidate record that seeds the buffer. -/
def c10d1 : FRec := { qID := "a", sID := "chr1", strand := '+', sStart := 0, sEnd := 10 }

/-- C10 input 2: non-candidate record that triggers a flush and leaves
the buffer empty. -/
def c10d2 : FRec := { qID := "z", sID := "chr1", strand := '+', sStart := 20, sEnd := 30 }

/-- C10 input 2: candidate record out of order relative to c10d2, read
while the buffer is empty. -/
def c10d3 : FRec := { qID := "a", sID := "chr1", strand := '+', sStart := 5, sEnd := 8 }

/-- C10: the sortedness check only sees buffered candidate records.  Both
concrete inputs violate the required (contigID, refStart) sort order, yet
the stream does not abort and yields windows normally: in input 1 the
out-of-order records come before the first candidate is buffered; in
input 2 the out-of-order record is read immediately after a flush has
emptied the buffer. -/
theorem C10_lazy_sort_check :
    sortedSameContig [c10n1, c10n2, c10c1, c10c2] = false ∧
    iter_gmap_sam_for_fusion ["a"] [c10n1, c10n2, c10c1, c10c2] =
      ([([c10c1, c10c2], [])], false) ∧
    sortedSameContig [c10d1, c10d2, c10d3] = false ∧
    iter_gmap_sam_for_fusion ["a"] [c10d1, c10d2, c10d3] =
      ([([c10d1], []), ([c10d3], [])], false) :=
  ⟨rfl, rfl, rfl, rfl⟩

/-- First-encounter deduplication with an explicit seen accumulator. -/
def firstSeenAux (seen : List String) : List String → List String
  | [] => []
  | a :: l => if a ∈ seen then firstSeenAux seen l else a :: firstSeenAux (seen ++ [a]) l

/-- The distinct elements of a list in first-encounter order. -/
def firstSeen (l : List String) : List String := firstSeenAux [] l

/-! Association-list lemmas for the defaultdict model. -/

theorem dlookup_dictAppend_same {β : Type} (d : List (String × List β)) (k : String) (v : β) :
    dlookup (dictAppend d k v) k = dlookup d k ++ [v] := by
  induction d with
  | nil => simp [dictAppend, dlookup]
  | cons e rest ih =>
    obtain ⟨k2, vs⟩ := e
    by_cases h : k2 = k
    · simp [dictAppend, dlookup, h]
    · simp [dictAppend, dlookup, h, ih]

theorem dlookup_dictAppend_other {β : Type} (d : List (String × List β)) (k1 k : String)
    (v : β) (h : k1 ≠ k) : dlookup (dictAppend d k1 v) k = dlookup d k := by
  induction d with
  | nil => simp [dictAppend, dlookup, h]
  | cons e rest ih =>
    obtain ⟨k2, vs⟩ := e
    by_cases h2 : k2 = k1
    · subst h2
      simp [dictAppend, dlookup, h]
    · simp only [dictAppend, if_neg h2]
      by_cases h3 : k2 = k
      · simp [dlookup, h3]
      · simp [dlookup, h3, ih]

theorem keys_dictAppend {β : Type} (d : List (String × List β)) (k : String) (v : β) :
    (dictAppend d k v).map Prod.fst =
      if k ∈ d.map Prod.fst then d.map Prod.fst else d.map Prod.fst ++ [k] := by
  induction d with
  | nil => simp [dictAppend]
  | cons e rest ih =>
    obtain ⟨k2, vs⟩ := e
    by_cases h : k2 = k
    · simp [dictAppend, h]
    · have hne : ¬ k = k2 := fun hk => h hk.symm
      by_cases hm : k ∈ rest.map Prod.fst
      · simp [dictAppend, h, ih, hm, hne]
      · simp [dictAppend, h, ih, hm, hne]

theorem nodup_keys_dictAppend {β : Type} (d : List (String × List β)) (k : String) (v : β)
    (h : (d.map Prod.fst).Nodup) : ((dictAppend d k v).map Prod.fst).Nodup := by
  rw [keys_dictAppend]
  by_cases hm : k ∈ d.map Prod.fst
  · simpa [hm] using h
  · simp only [hm, if_false]
    exact List.Nodup.append h (List.nodup_singleton k) (by simpa using hm)

theorem mem_keys_entry {β : Type} (d : List (String × List β)) (k : String)
    (h : k ∈ d.map Prod.fst) : (k, dlookup d k) ∈ d := by
  induction d with
  | nil => simp at h
  | cons e rest ih =>
    obtain ⟨k2, vs⟩ := e
    by_cases h2 : k2 = k
    · subst h2
      simp [dlookup]
    · have h3 : k ∈ k2 :: rest.map Prod.fst := by
        simpa only [List.map_cons] using h
      have hk : k ∈ rest.map Prod.fst := by
        rcases List.mem_cons.mp h3 with h4 | h4
        · exact absurd h4.symm h2
        · exact h4
      simp only [dlookup, if_neg h2]
      exact List.mem_cons_of_mem _ (ih hk)

theorem dlookup_of_mem_nodup {β : Type} (d : List (String × List β)) (k : String)
    (vs : List β) (hmem : (k, vs) ∈ d) (h : (d.map Prod.fst).Nodup) :
    dlookup d k = vs := by
  induction d with
  | nil => simp at hmem
  | cons e rest ih =>
    obtain ⟨k2, vs2⟩ := e
    simp only [List.map_cons, List.nodup_cons] at h
    rcases List.mem_cons.mp hmem with heq | htl
    · cases heq
      simp [dlookup]
    · have h2 : k2 ≠ k := by
        rintro rfl
        exact h.1 (List.mem_map.mpr ⟨(k2, vs), htl, rfl⟩)
      simp only [dlookup, if_neg h2]
      exact ih htl h.2

/-! Folding a list of key-value insertions into the dict. -/

theorem dlookup_insFold {β : Type} (kvs : List (String × β)) (d : List (String × List β))
    (k : String) :
    dlookup (kvs.foldl (fun d2 p => dictAppend d2 p.1 p.2) d) k =
      dlookup d k ++ (kvs.filter (fun p => decide (p.1 = k))).map Prod.snd := by
  induction kvs generalizing d with
  | nil => simp
  | cons p rest ih =>
    obtain ⟨k1, v⟩ := p
    by_cases h : k1 = k
    · subst h
      simp only [List.foldl_cons, ih, List.filter_cons]
      rw [dlookup_dictAppend_same]
      simp [List.append_assoc]
    · simp only [List.foldl_cons, ih, List.filter_cons]
      rw [dlookup_dictAppend_other _ _ _ _ h]
      simp [h]

theorem keys_insFold {β : Type} (kvs : List (String × β)) (d : List (String × List β)) :
    ((kvs.foldl (fun d2 p => dictAppend d2 p.1 p.2) d).map Prod.fst) =
      d.map Prod.fst ++ firstSeenAux (d.map Prod.fst) (kvs.map Prod.fst) := by
  induction kvs generalizing d with
  | nil => simp [firstSeenAux]
  | cons p rest ih =>
    simp only [List.foldl_cons, List.map_cons, ih, keys_dictAppend]
    by_cases hm : p.1 ∈ d.map Prod.fst
    · simp [hm, firstSeenAux]
    · simp [hm, firstSeenAux, List.append_assoc]

theorem nodup_insFold {β : Type} (kvs : List (String × β)) (d : List (String × List β))
    (h : (d.map Prod.fst).Nodup) :
    ((kvs.foldl (fun d2 p => dictAppend d2 p.1 p.2) d).map Prod.fst).Nodup := by
  induction kvs generalizing d with
  | nil => simpa using h
  | cons p rest ih => exact ih _ (nodup_keys_dictAppend _ _ _ h)

theorem mem_firstSeenAux (l : List String) (seen : List String) (k : String) :
    k ∈ firstSeenAux seen l ↔ k ∈ l ∧ k ∉ seen := by
  induction l generalizing seen with
  | nil => simp [firstSeenAux]
  | cons a rest ih =>
    by_cases h : a ∈ seen
    · rw [firstSeenAux, if_pos h, ih]
      constructor
      · rintro ⟨h1, h2⟩
        exact ⟨List.mem_cons_of_mem _ h1, h2⟩
      · rintro ⟨h1, h2⟩
        rcases List.mem_cons.mp h1 with rfl | h1
        · exact absurd h h2
        · exact ⟨h1, h2⟩
    · rw [firstSeenAux, if_neg h]
      constructor
      · intro hm
        rcases List.mem_cons.mp hm with rfl | hm
        · exact ⟨List.mem_cons_self _ _, h⟩
        · rw [ih] at hm
          refine ⟨List.mem_cons_of_mem _ hm.1, fun hk => hm.2 ?_⟩
          simp [hk]
      · rintro ⟨h1, h2⟩
        rcases List.mem_cons.mp h1 with rfl | h1
        · exact List.mem_cons_self _ _
        · by_cases hak : k = a
          · subst hak; exact List.mem_cons_self _ _
          · exact List.mem_cons_of_mem _ ((ih _).mpr ⟨h1, by simp [h2, hak]⟩)

/-! Specializations to groupByQID. -/

theorem groupByQID_eq_insFold (recs : List SamRec) :
    groupByQID recs =
      (recs.map (fun r => (r.qID, toTmpRec r))).foldl
        (fun d2 p => dictAppend d2 p.1 p.2) [] := by
  rw [groupByQID, List.foldl_map]

theorem dlookup_groupByQID (recs : List SamRec) (k : String) :
    dlookup (groupByQID recs) k =
      (recs.filter (fun r => decide (r.qID = k))).map toTmpRec := by
  rw [groupByQID_eq_insFold, dlookup_insFold]
  simp only [dlookup, List.nil_append]
  rw [List.filter_map, List.map_map]
  rfl

theorem keys_groupByQID (recs : List SamRec) :
    (groupByQID recs).map Prod.fst = firstSeen (recs.map (fun r => r.qID)) := by
  rw [groupByQID_eq_insFold, keys_insFold]
  have hc : (Prod.fst ∘ fun (r : SamRec) => (r.qID, toTmpRec r)) = fun r => r.qID := rfl
  simp [firstSeen, List.map_map, hc]

theorem nodup_keys_groupByQID (recs : List SamRec) :
    ((groupByQID recs).map Prod.fst).Nodup := by
  rw [groupByQID_eq_insFold]
  exact nodup_insFold _ [] (by simp)

theorem mem_keys_groupByQID (recs : List SamRec) (k : String) :
    k ∈ (groupByQID recs).map Prod.fst ↔ ∃ r ∈ recs, r.qID = k := by
  rw [keys_groupByQID, firstSeen, mem_firstSeenAux]
  simp

theorem all_pairs_gate_iff (md : Int) (l : List TmpRec) :
    all_pairs_gate md l = true ↔
      l.Pairwise (fun a b => md ≤ max a.sStart b.sStart - min a.sEnd b.sEnd) := by
  induction l with
  | nil => simp [all_pairs_gate]
  | cons a rest ih =>
    simp [all_pairs_gate, List.pairwise_cons, ih, pair_gate, List.all_eq_true]

theorem is_fusion_candidate_group_iff (p1 p2 : Rat) (p3 : Int) (data : List TmpRec)
    (L : Int) (hq : ∀ a ∈ data, a.qLen = L) :
    is_fusion_candidate_group p1 p2 p3 data = true ↔
      (2 ≤ data.length ∧ (∀ a ∈ data, p1 ≤ a.qCov) ∧
       p2 ≤ Rat.divInt (total_coverage data) L ∧
       data.Pairwise (fun a b => p3 ≤ max a.sStart b.sStart - min a.sEnd b.sEnd)) := by
  cases data with
  | nil => simp [is_fusion_candidate_group]
  | cons d0 rest =>
    have hd0 : d0.qLen = L := hq d0 (List.mem_cons_self _ _)
    rw [is_fusion_candidate_group, hd0]
    simp [all_pairs_gate_iff, List.all_eq_true, Nat.succ_le_iff, and_assoc]

theorem mem_find_fusion_candidates (recs : List SamRec) (p1 p2 : Rat) (p3 : Int)
    (k : String) :
    k ∈ find_fusion_candidates recs p1 p2 p3 ↔
      ((∃ r ∈ recs, r.qID = k) ∧
       is_fusion_candidate_group p1 p2 p3
         ((recs.filter (fun r => decide (r.qID = k))).map toTmpRec) = true) := by
  rw [find_fusion_candidates]
  constructor
  · intro hmem
    obtain ⟨e, he, hfe⟩ := List.mem_filterMap.mp hmem
    obtain ⟨k1, vs⟩ := e
    by_cases ht : is_fusion_candidate_group p1 p2 p3 vs = true
    · have hek : k1 = k := by simpa [ht] using hfe
      subst hek
      have hkeys : k1 ∈ (groupByQID recs).map Prod.fst :=
        List.mem_map.mpr ⟨(k1, vs), he, rfl⟩
      have hvs : dlookup (groupByQID recs) k1 = vs :=
        dlookup_of_mem_nodup _ _ _ he (nodup_keys_groupByQID recs)
      refine ⟨(mem_keys_groupByQID recs k1).mp hkeys, ?_⟩
      rw [← dlookup_groupByQID, hvs]
      exact ht
    · simp [ht] at hfe
  · rintro ⟨⟨r, hr, hrk⟩, ht⟩
    have hkeys : k ∈ (groupByQID recs).map Prod.fst :=
      (mem_keys_groupByQID recs k).mpr ⟨r, hr, hrk⟩
    have hent := mem_keys_entry _ _ hkeys
    refine List.mem_filterMap.mpr ⟨(k, dlookup (groupByQID recs) k), hent, ?_⟩
    rw [dlookup_groupByQID]
    simp [ht]

/-- C1: for every input alignment stream, a read id k is in the output of
find_fusion_candidates if and only if its group of records (the records of
the stream whose read id is k) has at least 2 records, every one of them
has queryCoverage at least min_locus_coverage, the interval union of the
half-open query intervals covers a fraction of at least min_total_coverage
of the read's query length L, and every unordered pair (a, b) of the
group's records satisfies
max(a.refStart, b.refStart) - min(a.refEnd, b.refEnd) >= min_dist_between_loci.
The hypothesis hlen states that L is the read's query length, carried by
each of its records. -/
theorem C1_fusion_candidate_iff (recs : List SamRec) (k : String)
    (p1 p2 : Rat) (p3 : Int) (L : Int)
    (hlen : ∀ r ∈ recs, r.qID = k → r.qLen = L) :
    k ∈ find_fusion_candidates recs p1 p2 p3 ↔
      (2 ≤ ((recs.filter (fun r => decide (r.qID = k))).map toTmpRec).length ∧
       (∀ a ∈ (recs.filter (fun r => decide (r.qID = k))).map toTmpRec, p1 ≤ a.qCov) ∧
       p2 ≤ Rat.divInt
         (total_coverage ((recs.filter (fun r => decide (r.qID = k))).map toTmpRec)) L ∧
       ((recs.filter (fun r => decide (r.qID = k))).map toTmpRec).Pairwise
         (fun a b => p3 ≤ max a.sStart b.sStart - min a.sEnd b.sEnd)) := by
  have hq : ∀ a ∈ (recs.filter (fun r => decide (r.qID = k))).map toTmpRec, a.qLen = L := by
    intro a ha
    obtain ⟨r, hr, rfl⟩ := List.mem_map.mp ha
    have hf := List.mem_filter.mp hr
    exact hlen r hf.1 (by simpa using hf.2)
  rw [mem_find_fusion_candidates, is_fusion_candidate_group_iff p1 p2 p3 _ L hq]
  constructor
  · rintro ⟨_, hc⟩
    exact hc
  · intro hc
    refine ⟨?_, hc⟩
    have hlen2 := hc.1
    cases hfil : recs.filter (fun r => decide (r.qID = k)) with
    | nil => rw [hfil] at hlen2; simp at hlen2
    | cons r rest =>
      have hr : r ∈ recs.filter (fun r => decide (r.qID = k)) := by
        rw [hfil]; exact List.mem_cons_self _ _
      have hf := List.mem_filter.mp hr
      exact ⟨r, hf.1, by simpa using hf.2⟩

/-- C1 witness input: a read with two far-apart loci jointly covering the
whole query. -/
def c1w1 : SamRec :=
  { qID := "a", sID := "chr1", qCov := 1, qLen := 100, qStart := 0, qEnd := 60,
    sStart := 0, sEnd := 10 }

/-- C1 witness input: the second locus of the same read. -/
def c1w2 : SamRec :=
  { qID := "a", sID := "chr1", qCov := 1, qLen := 100, qStart := 55, qEnd := 100,
    sStart := 2000000, sEnd := 2000010 }

/-- C1 witness: the candidate test at a concrete input. -/
theorem C1_fusion_candidate_iff_witness :
    "a" ∈ find_fusion_candidates [c1w1, c1w2] (mkRat 1 10) (mkRat 99 100) 100000 :=
  (C1_fusion_candidate_iff [c1w1, c1w2] "a" (mkRat 1 10) (mkRat 99 100) 100000 100
    (by decide)).mpr (by decide)

/-- C4 counterexample input: first locus, on contig chr1. -/
def c4r1 : SamRec :=
  { qID := "a", sID := "chr1", qCov := 1, qLen := 100, qStart := 0, qEnd := 100,
    sStart := 0, sEnd := 50 }

/-- C4 counterexample input: second locus, on contig chr2 but with
numerically close reference coordinates. -/
def c4r2 : SamRec :=
  { qID := "a", sID := "chr2", qCov := 1, qLen := 100, qStart := 0, qEnd := 100,
    sStart := 0, sEnd := 50 }

/-- C4 counterexample: the read has two records on different contigs, and
passes the record-count, per-locus-coverage and total-coverage conditions;
the claim says a different-contig pair never disqualifies the read, so the
read should be a candidate, yet find_fusion_candidates rejects it because
the distance gate compares the raw coordinates max(sStart) - min(sEnd) =
-50 < 100000 with no regard for the contig. -/
theorem C4_counterexample :
    c4r1.sID ≠ c4r2.sID ∧
    2 ≤ ([c4r1, c4r2].filter (fun r => decide (r.qID = "a"))).length ∧
    (∀ a ∈ [toTmpRec c4r1, toTmpRec c4r2], mkRat 1 10 ≤ a.qCov) ∧
    mkRat 99 100 ≤ Rat.divInt (total_coverage [toTmpRec c4r1, toTmpRec c4r2]) 100 ∧
    find_fusion_candidates [c4r1, c4r2] (mkRat 1 10) (mkRat 99 100) 100000 = [] := by
  decide

/-- C4 amended: contig identity plays no role at all in the candidate
test: the TmpRec projection discards sID, so find_fusion_candidates is
invariant under arbitrary relabelling of the contig ids; a pair of records
on different contigs is subjected to the same numeric
max(refStart) - min(refEnd) distance gate as a same-contig pair, and can
disqualify the read. -/
theorem C4_contig_blind (recs : List SamRec) (f : SamRec → String)
    (p1 p2 : Rat) (p3 : Int) :
    find_fusion_candidates (recs.map (fun r => { r with sID := f r })) p1 p2 p3 =
      find_fusion_candidates recs p1 p2 p3 := by
  rw [find_fusion_candidates, find_fusion_candidates, groupByQID, groupByQID,
    List.foldl_map]
  rfl
